import Mathlib

/-!
Shallow embedding of the trace and marker control logic of
pyrf/gui/trace_controls.py: the three peak search operations
(find_peak, find_right_peak, find_left_peak) and blank_trace,
together with the numpy primitives they use, over rational power
values.  A none result of an operation models a Python exception.
-/

namespace TraceCtl

/-- One trace: the four display mode flags and the optional held power
data (lines 292-336 manipulate these fields; data none models the
Python value None). -/
structure Trace where
  write : Bool
  max_hold : Bool
  min_hold : Bool
  blank : Bool
  data : Option (List ℚ)
deriving DecidableEq

/-- One marker: enabled flag, index of the bound trace, and the data
index into the power array (none models an unset index, Python None). -/
structure Marker where
  enabled : Bool
  trace_index : Nat
  data_index : Option Nat
deriving DecidableEq

/-- The state visible to the operations: the traces and markers of the
plot, the frequency axis xdata, the view window returned by
viewRange (wlo, whi), and plot_state.peak_threshold. -/
structure TC where
  traces : List Trace
  markers : List Marker
  xdata : List ℚ
  wlo : ℚ
  whi : ℚ
  peak_threshold : ℚ
deriving DecidableEq

/-- Python slice xs[lo:hi] for nonnegative bounds. -/
def pySlice (xs : List ℚ) (lo hi : Nat) : List ℚ :=
  (xs.drop lo).take (hi - lo)

/-- Result of np.searchsorted(xs, v) with the default side left: on an
ascending axis the binary search returns the insertion index, which is
the number of entries strictly below v. -/
def searchsorted (xs : List ℚ) (v : ℚ) : Nat :=
  xs.countP (fun x => decide (x < v))

/-- Result of np.max over a slice; none models the ValueError numpy
raises on an empty reduction. -/
def npMax : List ℚ → Option ℚ
  | [] => none
  | x :: xs =>
    some (match npMax xs with
      | none => x
      | some m => max x m)

/-- First entry of np.where(xs == v)[0].  The module stores the result
of np.where into marker.data_index and reads it back as a scalar
index, so the embedding keeps the first matching index, the
determinisation the module documentation fixes for duplicate values. -/
def whereFirst (v : ℚ) : List ℚ → Option Nat
  | [] => none
  | x :: xs => if x = v then some 0 else (whereFirst v xs).map (· + 1)

/-- Noise floor of lines 440-441 and 473-474:
np.mean(np.sort(xs)[int(len(xs) * 0.8):-1]).  The Python expression
int(len * 0.8) equals 4 * len / 5 in natural division; the upper
bound -1 drops the last, largest, sorted value; none models the NaN
that np.mean returns on an empty slice. -/
def noiseFloor (xs : List ℚ) : Option ℚ :=
  let sl := pySlice (List.insertionSort (fun a b => a ≤ b) xs)
      ((4 * xs.length) / 5) (xs.length - 1)
  if sl.length = 0 then none else some (sl.sum / (sl.length : ℚ))

/-- Values kept by np.ma.masked_less(xs, f + t).compressed(): the values
not below the threshold, in their original positional order.  A none
noise floor models the NaN threshold: every comparison with NaN is
false, so nothing is masked and every value is kept. -/
def maskNotLess (xs : List ℚ) (nf : Option ℚ) (t : ℚ) : List ℚ :=
  match nf with
  | none => xs
  | some f => xs.filter (fun v => !(decide (v < f + t)))

/-- Candidate picked on line 446: peak_values[1 if len > 1 else 0]. -/
def pickRight (cands : List ℚ) : ℚ :=
  cands.getD (if 1 < cands.length then 1 else 0) 0

/-- Candidate picked on line 479: peak_values[-2 if len > 1 else -1]. -/
def pickLeft (cands : List ℚ) : ℚ :=
  cands.getD (cands.length - (if 1 < cands.length then 2 else 1)) 0

/-- Replace the marker numbered num. -/
def setMarker (s : TC) (num : Nat) (mk : Marker) : TC :=
  { s with markers := s.markers.set num mk }

/-- Data index of the marker numbered num. -/
def markerIdx (s : TC) (num : Nat) : Option Nat :=
  (s.markers.get? num).bind Marker.data_index

/-- Lines 427-428 (and 461-462): when marker.data_index is None, default
it to len(pow_data) / 2, the Python 2 floor division; this writes the
marker before any of the no-op returns.  Fails (none) when the trace
holds no data, because len(None) raises.  Returns the index, the
updated marker and the updated state. -/
def defaultIndex (s : TC) (num : Nat) (marker : Marker) (trace : Trace) :
    Option (Nat × Marker × TC) :=
  match marker.data_index with
  | some i => some (i, marker, s)
  | none =>
    match trace.data with
    | none => none
    | some pow =>
      some (pow.length / 2, { marker with data_index := some (pow.length / 2) },
        setMarker s num { marker with data_index := some (pow.length / 2) })

/-- Lines 399-415, _find_peak: move the marker to the maximum of the
spectrum inside the view window.  The window check against the full
axis precedes the trace lookup; the final np.where runs over the full
power array. -/
def find_peak (s : TC) (num : Nat) : Option TC :=
  match s.markers.get? num with
  | none => none
  | some marker =>
    match s.xdata.head?, s.xdata.getLast? with
    | some f0, some fN =>
      if s.whi < f0 ∨ s.wlo > fN then some s
      else
        match (s.traces.get? marker.trace_index).bind Trace.data with
        | none => none
        | some pow =>
          match npMax (pySlice pow (searchsorted s.xdata s.wlo)
              (searchsorted s.xdata s.whi)) with
          | none => none
          | some pv =>
            some (setMarker s num { marker with data_index := whereFirst pv pow })
    | _, _ => none

/-- Line 429: data_range = self.xdata[marker.data_index:-1]. -/
def rightRange (s : TC) (m : Nat) : List ℚ :=
  pySlice s.xdata m (s.xdata.length - 1)

/-- Line 438: right_pow = pow_data[min_index:max_index], with the two
searchsorted results of line 436 offset by the marker index. -/
def rightPow (s : TC) (pow : List ℚ) (m : Nat) : List ℚ :=
  pySlice pow (searchsorted (rightRange s m) s.wlo + m)
    (searchsorted (rightRange s m) s.whi + m)

/-- Line 443: the compressed masked array of candidate peak values of
the right search. -/
def rightCands (s : TC) (pow : List ℚ) (m : Nat) : List ℚ :=
  maskNotLess (rightPow s pow m) (noiseFloor (rightPow s pow m))
    s.peak_threshold

/-- Line 463: data_range = self.xdata[0:marker.data_index]. -/
def leftRange (s : TC) (m : Nat) : List ℚ :=
  pySlice s.xdata 0 m

/-- Line 471: left_pow = pow_data[min_index:max_index]; the searchsorted
results of line 470 are not offset. -/
def leftPow (s : TC) (pow : List ℚ) (m : Nat) : List ℚ :=
  pySlice pow (searchsorted (leftRange s m) s.wlo)
    (searchsorted (leftRange s m) s.whi)

/-- Line 476: the compressed masked array of candidate peak values of
the left search. -/
def leftCands (s : TC) (pow : List ℚ) (m : Nat) : List ℚ :=
  maskNotLess (leftPow s pow m) (noiseFloor (leftPow s pow m))
    s.peak_threshold

/-- Lines 417-446, _find_right_peak: move the marker to the next peak on
the right.  data_range is xdata[m:-1]; an empty data_range and a
window outside it both return with no further change; the candidate
pipeline is noise floor, masking, pick, np.where over the full power
array. -/
def find_right_peak (s : TC) (num : Nat) : Option TC :=
  match s.markers.get? num with
  | none => none
  | some marker =>
    match s.traces.get? marker.trace_index with
    | none => none
    | some trace =>
      match defaultIndex s num marker trace with
      | none => none
      | some (m, marker1, s1) =>
        let dr := rightRange s m
        match dr.head?, dr.getLast? with
        | some d0, some dN =>
          if s.whi < d0 ∨ s.wlo > dN then some s1
          else
            match trace.data with
            | none => none
            | some pow =>
              let cands := rightCands s pow m
              if cands.length = 0 then some s1
              else
                some (setMarker s1 num
                  { marker1 with data_index := whereFirst (pickRight cands) pow })
        | _, _ => some s1

/-- Lines 448-479, _find_left_peak: move the marker to the next peak on
the left.  data_range is xdata[0:m]; the searchsorted results are not
offset; the pick takes the second to last candidate.  Lines 456-457
click the marker check control when the marker is disabled; that
control is built by the wider GUI outside this module.  Modelled from
the spec: the activation side effect of the left search enables the
marker it was given. -/
def find_left_peak (s : TC) (num : Nat) : Option TC :=
  match s.markers.get? num with
  | none => none
  | some marker0 =>
    match s.traces.get? marker0.trace_index with
    | none => none
    | some trace =>
      let marker := if marker0.enabled then marker0
        else { marker0 with enabled := true }
      let sE := if marker0.enabled then s else setMarker s num marker
      match defaultIndex sE num marker trace with
      | none => none
      | some (m, marker1, s1) =>
        let dr := leftRange s m
        match dr.head?, dr.getLast? with
        | some d0, some dN =>
          if s.whi < d0 ∨ s.wlo > dN then some s1
          else
            match trace.data with
            | none => none
            | some pow =>
              let cands := leftCands s pow m
              if cands.length = 0 then some s1
              else
                some (setMarker s1 num
                  { marker1 with data_index := whereFirst (pickLeft cands) pow })
        | _, _ => some s1

/-- Modelled from the spec: Marker.disable is defined by the marker
class of the plot widget, outside this module; it disables the marker
and, per the stated round trip property, returns it to the unset
index state. -/
def Marker.disable (mk : Marker) : Marker :=
  { mk with enabled := false, data_index := none }

/-- Lines 322-336, blank_trace: clear the three other mode flags, set
blank, drop the held data, and disable every marker whose trace_index
equals num. -/
def blank_trace (s : TC) (num : Nat) : Option TC :=
  match s.traces.get? num with
  | none => none
  | some _ =>
    some { s with
      traces := s.traces.set num
        { write := false, max_hold := false, min_hold := false,
          blank := true, data := none },
      markers := s.markers.map
        (fun mk => if mk.trace_index = num then mk.disable else mk) }

/-- Scale the held data of one trace by c. -/
def scaleTrace (c : ℚ) (t : Trace) : Trace :=
  { t with data := t.data.map (List.map (fun v => c * v)) }

/-- Scale every held power value by c and the peak threshold by c;
markers, axis and window are untouched. -/
def scaleTC (c : ℚ) (s : TC) : TC :=
  { s with
    traces := s.traces.map (scaleTrace c),
    peak_threshold := c * s.peak_threshold }

/-- Noise floor as the claim words it: sort ascending and average the
top 20 percent of the values, the maximum included (from index
floor(0.8 * len) to the end of the array). -/
def specNoiseFloorToEnd (xs : List ℚ) : ℚ :=
  let sl := (List.insertionSort (fun a b => a ≤ b) xs).drop ((4 * xs.length) / 5)
  sl.sum / (sl.length : ℚ)

/-- Noise floor as the amended claim words it, stated over an
independent sort: sort ascending (as a multiset sort) and average the
values from index floor(0.8 * len) up to but excluding the last one,
so the maximum is excluded. -/
def specNoiseFloorExclMax (xs : List ℚ) : ℚ :=
  let sorted := Multiset.sort (fun a b => a ≤ b) (↑xs)
  let sl := (sorted.drop ((4 * xs.length) / 5)).dropLast
  sl.sum / (sl.length : ℚ)

/-! Helper lemmas about the numpy primitives. -/

lemma whereFirst_get? {v : ℚ} {l : List ℚ} {i : Nat}
    (h : whereFirst v l = some i) : l.get? i = some v := by
  induction l generalizing i with
  | nil => simp [whereFirst] at h
  | cons x xs ih =>
    by_cases hx : x = v
    · simp [whereFirst, hx] at h
      subst h
      simp [hx]
    · simp only [whereFirst, if_neg hx, Option.map_eq_some'] at h
      obtain ⟨j, hj, rfl⟩ := h
      simpa using ih hj

lemma whereFirst_min {v : ℚ} {l : List ℚ} {i : Nat}
    (h : whereFirst v l = some i) : ∀ j < i, l.get? j ≠ some v := by
  induction l generalizing i with
  | nil => simp [whereFirst] at h
  | cons x xs ih =>
    by_cases hx : x = v
    · simp [whereFirst, hx] at h
      omega
    · simp only [whereFirst, if_neg hx, Option.map_eq_some'] at h
      obtain ⟨k, hk, rfl⟩ := h
      intro j hj
      cases j with
      | zero => simpa using hx
      | succ j' => simpa using ih hk j' (by omega)

lemma whereFirst_isSome {v : ℚ} {l : List ℚ} (h : v ∈ l) :
    ∃ i, whereFirst v l = some i := by
  induction l with
  | nil => simp at h
  | cons x xs ih =>
    by_cases hx : x = v
    · exact ⟨0, by simp [whereFirst, hx]⟩
    · rcases List.mem_cons.mp h with rfl | h2
      · exact absurd rfl hx
      · obtain ⟨i, hi⟩ := ih h2
        exact ⟨i + 1, by simp [whereFirst, hx, hi]⟩

lemma npMax_eq_none {l : List ℚ} : npMax l = none ↔ l = [] := by
  cases l <;> simp [npMax]

lemma npMax_cons_none {x : ℚ} {xs : List ℚ} (h : npMax xs = none) :
    npMax (x :: xs) = some x := by
  simp only [npMax, h]

lemma npMax_cons_some {x : ℚ} {xs : List ℚ} {m' : ℚ} (h : npMax xs = some m') :
    npMax (x :: xs) = some (max x m') := by
  simp only [npMax, h]

lemma npMax_mem {l : List ℚ} {m : ℚ} (h : npMax l = some m) : m ∈ l := by
  induction l generalizing m with
  | nil => simp [npMax] at h
  | cons x xs ih =>
    cases hxs : npMax xs with
    | none =>
      rw [npMax_cons_none hxs] at h
      injection h with h
      subst h
      exact List.mem_cons_self _ _
    | some m' =>
      rw [npMax_cons_some hxs] at h
      injection h with h
      rcases max_choice x m' with hc | hc
      · rw [hc] at h
        subst h
        exact List.mem_cons_self _ _
      · rw [hc] at h
        subst h
        exact List.mem_cons_of_mem _ (ih hxs)

lemma le_npMax {l : List ℚ} {m : ℚ} (h : npMax l = some m) :
    ∀ x ∈ l, x ≤ m := by
  induction l generalizing m with
  | nil => simp
  | cons y ys ih =>
    intro x hx
    rcases List.mem_cons.mp hx with rfl | hx
    · cases hys : npMax ys with
      | none =>
        rw [npMax_cons_none hys] at h
        injection h with h
        exact le_of_eq h
      | some m' =>
        rw [npMax_cons_some hys] at h
        injection h with h
        exact le_trans (le_max_left x m') (le_of_eq h)
    · cases hys : npMax ys with
      | none =>
        rw [npMax_eq_none] at hys
        subst hys
        simp at hx
      | some m' =>
        rw [npMax_cons_some hys] at h
        injection h with h
        exact le_trans (ih hys x hx) (le_trans (le_max_right y m') (le_of_eq h))

lemma npMax_isSome {l : List ℚ} (h : l ≠ []) : ∃ m, npMax l = some m := by
  cases l with
  | nil => exact absurd rfl h
  | cons x xs => exact ⟨_, rfl⟩

lemma pySlice_subset (l : List ℚ) (lo hi : Nat) : pySlice l lo hi ⊆ l := by
  intro x hx
  exact List.drop_subset lo l (List.take_subset _ _ hx)

lemma pySlice_length (l : List ℚ) (lo hi : Nat) :
    (pySlice l lo hi).length = min (hi - lo) (l.length - lo) := by
  simp [pySlice]

lemma pySlice_get? {l : List ℚ} {lo hi i : Nat} {x : ℚ}
    (h : (pySlice l lo hi).get? i = some x) : l.get? (lo + i) = some x := by
  have hlen : i < (pySlice l lo hi).length := by
    rw [List.get?_eq_some] at h
    exact h.1
  rw [pySlice_length] at hlen
  have hlt : i < hi - lo := lt_of_lt_of_le hlen (min_le_left _ _)
  rw [pySlice, List.get?_take hlt, List.get?_drop] at h
  exact h

lemma pySlice_mem_spec {l : List ℚ} {lo hi : Nat} {x : ℚ}
    (hx : x ∈ pySlice l lo hi) :
    ∃ j, lo ≤ j ∧ j < hi ∧ l.get? j = some x := by
  obtain ⟨i, hi2⟩ := List.mem_iff_get?.mp hx
  have hlen : i < (pySlice l lo hi).length := by
    rw [List.get?_eq_some] at hi2
    exact hi2.1
  rw [pySlice_length] at hlen
  have hlt : i < hi - lo := lt_of_lt_of_le hlen (min_le_left _ _)
  exact ⟨lo + i, Nat.le_add_right _ _, by omega, pySlice_get? hi2⟩

lemma maskNotLess_subset (xs : List ℚ) (nf : Option ℚ) (t : ℚ) :
    maskNotLess xs nf t ⊆ xs := by
  cases nf with
  | none =>
    intro x hx
    exact hx
  | some f =>
    intro x hx
    exact List.mem_of_mem_filter hx

lemma getD_of_get? {l : List ℚ} {n : Nat} {a d : ℚ}
    (h : l.get? n = some a) : l.getD n d = a := by
  rw [List.getD_eq_get?, h]
  rfl

lemma pickRight_get? {l : List ℚ} (h : 1 < l.length) :
    l.get? 1 = some (pickRight l) := by
  have ha := List.get?_eq_get (l := l) (n := 1) h
  rw [ha, pickRight, if_pos h, getD_of_get? ha]

lemma pickRight_single {l : List ℚ} (h : l.length = 1) :
    l = [pickRight l] := by
  match l, h with
  | [a], _ => simp [pickRight]

lemma pickLeft_get? {l : List ℚ} (h : 1 < l.length) :
    l.get? (l.length - 2) = some (pickLeft l) := by
  have hlt : l.length - 2 < l.length := by omega
  have ha := List.get?_eq_get (l := l) (n := l.length - 2) hlt
  rw [ha, pickLeft, if_pos h, getD_of_get? ha]

lemma pickLeft_single {l : List ℚ} (h : l.length = 1) :
    l = [pickLeft l] := by
  match l, h with
  | [a], _ => simp [pickLeft]

lemma pickRight_mem {l : List ℚ} (h : l ≠ []) : pickRight l ∈ l := by
  rcases Nat.lt_or_ge 1 l.length with h1 | h1
  · exact List.get?_mem (pickRight_get? h1)
  · have h0 : 0 < l.length := List.length_pos.mpr h
    have hl1 : l.length = 1 := by omega
    match l, hl1 with
    | [a], _ => simp [pickRight]

lemma pickLeft_mem {l : List ℚ} (h : l ≠ []) : pickLeft l ∈ l := by
  rcases Nat.lt_or_ge 1 l.length with h1 | h1
  · exact List.get?_mem (pickLeft_get? h1)
  · have h0 : 0 < l.length := List.length_pos.mpr h
    have hl1 : l.length = 1 := by omega
    match l, hl1 with
    | [a], _ => simp [pickLeft]

lemma getLast?_mem {l : List ℚ} {b : ℚ} (h : l.getLast? = some b) : b ∈ l := by
  induction l with
  | nil => simp at h
  | cons x xs ih =>
    cases xs with
    | nil => simp at h; simp [h]
    | cons y ys =>
      rw [List.getLast?_cons_cons] at h
      exact List.mem_cons_of_mem _ (ih h)

lemma sorted_head?_le {l : List ℚ} (hs : l.Pairwise (fun a b => a ≤ b))
    {a x : ℚ} (ha : l.head? = some a) (hx : x ∈ l) : a ≤ x := by
  cases l with
  | nil => simp at ha
  | cons y ys =>
    simp at ha
    subst ha
    rcases List.mem_cons.mp hx with rfl | h2
    · exact le_refl _
    · exact List.rel_of_pairwise_cons hs h2

lemma sorted_le_getLast? {l : List ℚ} (hs : l.Pairwise (fun a b => a ≤ b))
    {b x : ℚ} (hb : l.getLast? = some b) (hx : x ∈ l) : x ≤ b := by
  induction l with
  | nil => simp at hb
  | cons y ys ih =>
    cases ys with
    | nil =>
      simp at hb hx
      simp [hx, hb]
    | cons z zs =>
      rw [List.getLast?_cons_cons] at hb
      rcases List.mem_cons.mp hx with rfl | h2
      · exact List.rel_of_pairwise_cons hs (getLast?_mem hb)
      · exact ih (List.Pairwise.of_cons hs) hb h2

/-! Path lemmas unfolding each operation under explicit hypotheses. -/

lemma setMarker_markers_get?_ne {s : TC} {num j : Nat} (mk : Marker)
    (h : j ≠ num) : (setMarker s num mk).markers.get? j = s.markers.get? j :=
  List.get?_set_ne _ _ (fun hc => h hc.symm)

lemma setMarker_markers_get?_eq {s : TC} {num : Nat} {mk0 : Marker}
    (mk : Marker) (h : s.markers.get? num = some mk0) :
    (setMarker s num mk).markers.get? num = some mk := by
  have hlt : num < s.markers.length := (List.get?_eq_some.mp h).1
  exact List.get?_set_eq_of_lt _ hlt

lemma markerIdx_setMarker {s : TC} {num : Nat} {mk0 : Marker} (mk : Marker)
    (h : s.markers.get? num = some mk0) :
    markerIdx (setMarker s num mk) num = mk.data_index := by
  rw [markerIdx, setMarker_markers_get?_eq mk h]
  rfl

lemma find_peak_eq {s : TC} {num : Nat} {mk : Marker} {pow : List ℚ}
    {f0 fN pv : ℚ}
    (hmk : s.markers.get? num = some mk)
    (hf0 : s.xdata.head? = some f0)
    (hfN : s.xdata.getLast? = some fN)
    (hwin : ¬(s.whi < f0 ∨ s.wlo > fN))
    (hdata : (s.traces.get? mk.trace_index).bind Trace.data = some pow)
    (hmax : npMax (pySlice pow (searchsorted s.xdata s.wlo)
      (searchsorted s.xdata s.whi)) = some pv) :
    find_peak s num =
      some (setMarker s num { mk with data_index := whereFirst pv pow }) := by
  unfold find_peak
  simp only [hmk, hf0, hfN, if_neg hwin, hdata, hmax]

lemma find_right_peak_eq {s : TC} {num : Nat} {mk : Marker} {tr : Trace}
    {pow : List ℚ} {m : Nat} {d0 dN : ℚ}
    (hmk : s.markers.get? num = some mk)
    (hidx : mk.data_index = some m)
    (htr : s.traces.get? mk.trace_index = some tr)
    (hdata : tr.data = some pow)
    (hd0 : (rightRange s m).head? = some d0)
    (hdN : (rightRange s m).getLast? = some dN)
    (hwin : ¬(s.whi < d0 ∨ s.wlo > dN)) :
    find_right_peak s num =
      if (rightCands s pow m).length = 0 then some s
      else some (setMarker s num
        { mk with data_index := whereFirst (pickRight (rightCands s pow m)) pow }) := by
  unfold find_right_peak defaultIndex
  simp only [hmk, htr, hidx, hd0, hdN, if_neg hwin, hdata]

lemma find_right_peak_noop {s : TC} {num : Nat} {mk : Marker} {tr : Trace}
    {m : Nat}
    (hmk : s.markers.get? num = some mk)
    (hidx : mk.data_index = some m)
    (htr : s.traces.get? mk.trace_index = some tr)
    (hstop : ∀ d0 dN, (rightRange s m).head? = some d0 →
      (rightRange s m).getLast? = some dN → (s.whi < d0 ∨ s.wlo > dN)) :
    find_right_peak s num = some s := by
  unfold find_right_peak defaultIndex
  simp only [hmk, htr, hidx]
  cases hd0 : (rightRange s m).head? with
  | none =>
    cases hdN : (rightRange s m).getLast? <;> simp [hd0, hdN]
  | some d0 =>
    cases hdN : (rightRange s m).getLast? with
    | none => simp [hd0, hdN]
    | some dN => simp [hd0, hdN, hstop d0 dN hd0 hdN]

lemma find_left_peak_eq {s : TC} {num : Nat} {mk : Marker} {tr : Trace}
    {pow : List ℚ} {m : Nat} {d0 dN : ℚ}
    (hmk : s.markers.get? num = some mk)
    (hidx : mk.data_index = some m)
    (htr : s.traces.get? mk.trace_index = some tr)
    (hdata : tr.data = some pow)
    (hd0 : (leftRange s m).head? = some d0)
    (hdN : (leftRange s m).getLast? = some dN)
    (hwin : ¬(s.whi < d0 ∨ s.wlo > dN)) :
    find_left_peak s num =
      if (leftCands s pow m).length = 0 then
        some (if mk.enabled then s else setMarker s num { mk with enabled := true })
      else some (setMarker s num
        { mk with
          enabled := true
          data_index := whereFirst (pickLeft (leftCands s pow m)) pow }) := by
  unfold find_left_peak defaultIndex
  simp only [hmk, htr]
  cases hEn : mk.enabled with
  | true =>
    have hmkE : { mk with enabled := true } = mk := by
      cases mk
      simp_all
    simp only [hEn, if_true, hidx, hd0, hdN, if_neg hwin, hdata, hmkE]
  | false =>
    simp only [hEn, Bool.false_eq_true, if_false, hidx, hd0, hdN, if_neg hwin,
      hdata, setMarker, List.set_set]

lemma find_left_peak_noop {s : TC} {num : Nat} {mk : Marker} {tr : Trace}
    {m : Nat}
    (hmk : s.markers.get? num = some mk)
    (hidx : mk.data_index = some m)
    (htr : s.traces.get? mk.trace_index = some tr)
    (hstop : ∀ d0 dN, (leftRange s m).head? = some d0 →
      (leftRange s m).getLast? = some dN → (s.whi < d0 ∨ s.wlo > dN)) :
    find_left_peak s num =
      some (if mk.enabled then s else setMarker s num { mk with enabled := true }) := by
  unfold find_left_peak defaultIndex
  simp only [hmk, htr]
  cases hEn : mk.enabled with
  | true =>
    have hmkE : { mk with enabled := true } = mk := by
      cases mk
      simp_all
    cases hd0 : (leftRange s m).head? with
    | none =>
      cases hdN : (leftRange s m).getLast? <;> simp [hEn, hidx, hd0, hdN, hmkE]
    | some d0 =>
      cases hdN : (leftRange s m).getLast? with
      | none => simp [hEn, hidx, hd0, hdN, hmkE]
      | some dN => simp [hEn, hidx, hd0, hdN, hstop d0 dN hd0 hdN, hmkE]
  | false =>
    cases hd0 : (leftRange s m).head? with
    | none =>
      cases hdN : (leftRange s m).getLast? <;> simp [hEn, hidx, hd0, hdN]
    | some d0 =>
      cases hdN : (leftRange s m).getLast? with
      | none => simp [hEn, hidx, hd0, hdN]
      | some dN => simp [hEn, hidx, hd0, hdN, hstop d0 dN hd0 hdN]

lemma multisetSort_eq_insertionSort (xs : List ℚ) :
    Multiset.sort (fun a b => a ≤ b) (↑xs) =
      List.insertionSort (fun a b => a ≤ b) xs := by
  apply List.eq_of_perm_of_sorted (r := fun a b : ℚ => a ≤ b)
  · have h1 : ((Multiset.sort (fun a b : ℚ => a ≤ b) (↑xs) : List ℚ) : Multiset ℚ)
        = (↑xs : Multiset ℚ) := Multiset.sort_eq _ _
    exact (Multiset.coe_eq_coe.mp h1).trans (List.perm_insertionSort _ xs).symm
  · exact Multiset.sort_sorted _ _
  · exact List.sorted_insertionSort _ xs

/-! Claim theorems. -/

/-- C10: for every restricted power sub-array of length 1 to 5 the
sorted slice int(0.8 * len):-1 taken for the noise floor is empty, so
the noise floor is the mean of an empty array (the NaN that none
models) and the threshold mask rejects nothing: every point of the
sub-array is a candidate. -/
theorem C10_short_subarray_all_candidates (xs : List ℚ) (t : ℚ)
    (h1 : 1 ≤ xs.length) (h5 : xs.length ≤ 5) :
    noiseFloor xs = none ∧ maskNotLess xs (noiseFloor xs) t = xs := by
  have hnf : noiseFloor xs = none := by
    unfold noiseFloor
    have hz : xs.length - 1 - 4 * xs.length / 5 = 0 := by omega
    simp [pySlice, hz]
  refine ⟨hnf, ?_⟩
  rw [hnf]
  rfl

/-- Witness for C10 at the sub-array [3, 1, 2] with threshold 7. -/
theorem C10_short_subarray_all_candidates_witness :
    1 ≤ ([3, 1, 2] : List ℚ).length ∧ ([3, 1, 2] : List ℚ).length ≤ 5 ∧
      noiseFloor [3, 1, 2] = none ∧
      maskNotLess [3, 1, 2] (noiseFloor [3, 1, 2]) 7 = [3, 1, 2] := by
  refine ⟨by simp, by simp, ?_⟩
  have h := C10_short_subarray_all_candidates [3, 1, 2] 7 (by simp) (by simp)
  exact ⟨h.1, h.2⟩

/-- C2 counterexample: the claim says the noise floor is the mean of
the sorted values from index floor(0.8 * len) to the end, the maximum
included.  On the sub-array [0, 0, 0, 0, 3, 9] the code computes
mean [3] = 3 (bound -1 drops the maximum 9) while the claimed value is
mean [3, 9] = 6. -/
theorem C2_counterexample :
    noiseFloor [0, 0, 0, 0, 3, 9] ≠
      some (specNoiseFloorToEnd [0, 0, 0, 0, 3, 9]) := by
  norm_num [noiseFloor, specNoiseFloorToEnd, pySlice, List.insertionSort,
    List.orderedInsert]

/-- C2 amended: whenever the sorted slice is non-empty, the noise floor
equals the mean of the values of the ascending sort from index
floor(0.8 * len) up to but excluding the last one, so the maximum is
excluded. -/
theorem C2_noise_floor_top20_excl_max (xs : List ℚ)
    (h : 4 * xs.length / 5 < xs.length - 1) :
    noiseFloor xs = some (specNoiseFloorExclMax xs) := by
  have hlen : (List.insertionSort (fun a b : ℚ => a ≤ b) xs).length = xs.length :=
    List.length_insertionSort _ xs
  have hdl : ((List.insertionSort (fun a b : ℚ => a ≤ b) xs).drop
        (4 * xs.length / 5)).dropLast =
      pySlice (List.insertionSort (fun a b => a ≤ b) xs)
        (4 * xs.length / 5) (xs.length - 1) := by
    rw [List.dropLast_eq_take, pySlice, List.length_drop, hlen]
    congr 1
    omega
  have hne : (pySlice (List.insertionSort (fun a b : ℚ => a ≤ b) xs)
      (4 * xs.length / 5) (xs.length - 1)).length ≠ 0 := by
    rw [pySlice_length, hlen]
    omega
  unfold noiseFloor specNoiseFloorExclMax
  simp only [multisetSort_eq_insertionSort, hdl, if_neg hne]

/-- Witness for the amended C2 at the sub-array [0, 0, 0, 0, 3, 9]. -/
theorem C2_noise_floor_top20_excl_max_witness :
    4 * ([0, 0, 0, 0, 3, 9] : List ℚ).length / 5 <
        ([0, 0, 0, 0, 3, 9] : List ℚ).length - 1 ∧
      noiseFloor [0, 0, 0, 0, 3, 9] =
        some (specNoiseFloorExclMax [0, 0, 0, 0, 3, 9]) :=
  ⟨by norm_num, C2_noise_floor_top20_excl_max _ (by norm_num)⟩

/-- C6: when the marker index is unset, the right and left searches
write len(pow_data) / 2 (integer floor division) into the marker and
then proceed exactly as they would have from a marker whose index was
already N / 2. -/
theorem C6_unset_marker_defaults_to_half (s : TC) (num : Nat) (mk : Marker)
    (tr : Trace) (pow : List ℚ)
    (hmk : s.markers.get? num = some mk)
    (hidx : mk.data_index = none)
    (htr : s.traces.get? mk.trace_index = some tr)
    (hdata : tr.data = some pow) :
    find_right_peak s num =
      find_right_peak
        (setMarker s num { mk with data_index := some (pow.length / 2) }) num ∧
    find_left_peak s num =
      find_left_peak
        (setMarker s num { mk with data_index := some (pow.length / 2) }) num := by
  obtain ⟨en, ti, di⟩ := mk
  have hdi : di = none := hidx
  subst hdi
  have hti : s.traces.get? ti = some tr := htr
  have hlt : num < s.markers.length := (List.get?_eq_some.mp hmk).1
  have hget : (s.markers.set num (Marker.mk en ti (some (pow.length / 2)))).get? num
      = some (Marker.mk en ti (some (pow.length / 2))) :=
    List.get?_set_eq_of_lt _ hlt
  constructor
  · unfold find_right_peak defaultIndex
    simp only [setMarker, hmk, hti, hdata, hget, rightRange, rightCands,
      rightPow, List.set_set]
  · unfold find_left_peak defaultIndex
    cases en with
    | true =>
      simp only [setMarker, hmk, hti, hdata, hget, leftRange, leftCands, leftPow,
        List.set_set, reduceIte]
    | false =>
      simp only [setMarker, hmk, hti, hdata, hget, leftRange, leftCands, leftPow,
        List.set_set, Bool.false_eq_true, if_false, reduceIte]

/-- Witness for C6: a state with one trace of four samples and a marker
with an unset index. -/
theorem C6_unset_marker_defaults_to_half_witness :
    find_right_peak
        (TC.mk [Trace.mk true false false false (some [1, 2, 3, 4])]
          [Marker.mk true 0 none] [0, 1, 2, 3] 0 10 0) 0 =
      find_right_peak
        (setMarker
          (TC.mk [Trace.mk true false false false (some [1, 2, 3, 4])]
            [Marker.mk true 0 none] [0, 1, 2, 3] 0 10 0) 0
          { Marker.mk true 0 none with data_index := some 2 }) 0 := by
  have h := C6_unset_marker_defaults_to_half
    (TC.mk [Trace.mk true false false false (some [1, 2, 3, 4])]
      [Marker.mk true 0 none] [0, 1, 2, 3] 0 10 0) 0
    (Marker.mk true 0 none) (Trace.mk true false false false (some [1, 2, 3, 4]))
    [1, 2, 3, 4] rfl rfl rfl rfl
  exact h.1

/-- C8: after blank_trace num, trace num is in blank mode with the
three other mode flags cleared and its data dropped, and every marker
bound to trace num is disabled (with its index reset). -/
theorem C8_blank_trace_blanks_and_disables (s : TC) (num : Nat) (tr : Trace)
    (htr : s.traces.get? num = some tr) :
    ∃ s', blank_trace s num = some s' ∧
      s'.traces.get? num =
        some { write := false, max_hold := false, min_hold := false,
               blank := true, data := none } ∧
      ∀ mk' ∈ s'.markers, mk'.trace_index = num →
        mk'.enabled = false ∧ mk'.data_index = none := by
  have hs' : blank_trace s num = some { s with
      traces := s.traces.set num
        { write := false, max_hold := false, min_hold := false,
          blank := true, data := none }
      markers := s.markers.map
        (fun mk => if mk.trace_index = num then mk.disable else mk) } := by
    unfold blank_trace
    rw [htr]
  refine ⟨_, hs', ?_, ?_⟩
  · exact List.get?_set_eq_of_lt _ ((List.get?_eq_some.mp htr).1)
  · intro mk' hmem hti
    rcases List.mem_map.mp hmem with ⟨mk0, hmk0, heq⟩
    by_cases hb : mk0.trace_index = num
    · rw [if_pos hb] at heq
      subst heq
      exact ⟨rfl, rfl⟩
    · rw [if_neg hb] at heq
      subst heq
      exact absurd hti hb

/-- Witness for C8: one blanked trace and one bound marker. -/
theorem C8_blank_trace_blanks_and_disables_witness :
    ∃ s', blank_trace
        (TC.mk [Trace.mk true false false false (some [1, 2])]
          [Marker.mk true 0 (some 1)] [0, 1] 0 1 0) 0 = some s' ∧
      s'.traces.get? 0 =
        some { write := false, max_hold := false, min_hold := false,
               blank := true, data := none } ∧
      ∀ mk' ∈ s'.markers, mk'.trace_index = 0 →
        mk'.enabled = false ∧ mk'.data_index = none :=
  C8_blank_trace_blanks_and_disables _ 0
    (Trace.mk true false false false (some [1, 2])) rfl

/-- C1 amended: when the window [wlo, whi] meets [F[0], F[N-1]] and the
clipped slice P[lo:hi) (lo, hi computed by the searchsorted lookup) is
non-empty with maximum pv, find_peak sets the marker index to the
first index i of the FULL power array whose value equals pv; P[i] = pv
and pv is the maximum of the clipped slice, but i may lie outside
[lo, hi) when the maximum value also occurs outside the window. -/
theorem C1_global_peak_first_match (s : TC) (num : Nat) (mk : Marker)
    (pow : List ℚ) (f0 fN pv : ℚ)
    (hmk : s.markers.get? num = some mk)
    (hf0 : s.xdata.head? = some f0)
    (hfN : s.xdata.getLast? = some fN)
    (hwin : ¬(s.whi < f0 ∨ s.wlo > fN))
    (hdata : (s.traces.get? mk.trace_index).bind Trace.data = some pow)
    (hmax : npMax (pySlice pow (searchsorted s.xdata s.wlo)
      (searchsorted s.xdata s.whi)) = some pv) :
    ∃ i, find_peak s num =
        some (setMarker s num { mk with data_index := some i }) ∧
      pow.get? i = some pv ∧
      (∀ j < i, pow.get? j ≠ some pv) ∧
      pv ∈ pySlice pow (searchsorted s.xdata s.wlo) (searchsorted s.xdata s.whi) ∧
      ∀ x ∈ pySlice pow (searchsorted s.xdata s.wlo) (searchsorted s.xdata s.whi),
        x ≤ pv := by
  have hmem : pv ∈ pySlice pow (searchsorted s.xdata s.wlo)
      (searchsorted s.xdata s.whi) := npMax_mem hmax
  have hpow : pv ∈ pow := pySlice_subset _ _ _ hmem
  obtain ⟨i, hi⟩ := whereFirst_isSome hpow
  refine ⟨i, ?_, whereFirst_get? hi, whereFirst_min hi, hmem, le_npMax hmax⟩
  rw [find_peak_eq hmk hf0 hfN hwin hdata hmax, hi]

/-- State used for the C1 counterexample and witness: F = [0, 1, 2],
P = [5, 0, 5], window [1/2, 5/2], one enabled marker on trace 0. -/
def c1State : TC :=
  TC.mk [Trace.mk true false false false (some [5, 0, 5])]
    [Marker.mk true 0 none] [0, 1, 2] (1/2) (5/2) 0

/-- C1 counterexample: the claim says the returned index lies in the
clipped interval [lo, hi).  Here lo = 1 and hi = 3, the clipped slice
is [0, 5] with maximum 5, but np.where runs over the full array and
the marker is set to index 0, outside [lo, hi). -/
theorem C1_counterexample :
    searchsorted c1State.xdata c1State.wlo = 1 ∧
    (find_peak c1State 0).map (fun s => markerIdx s 0) = some (some 0) := by
  constructor
  · norm_num [searchsorted, c1State]
  · norm_num [find_peak, markerIdx, setMarker, searchsorted, pySlice, npMax,
      whereFirst, c1State]

/-- Witness for the amended C1 on c1State. -/
theorem C1_global_peak_first_match_witness :
    ∃ i, find_peak c1State 0 =
        some (setMarker c1State 0 { Marker.mk true 0 none with data_index := some i }) ∧
      ([5, 0, 5] : List ℚ).get? i = some 5 ∧
      ∀ j < i, ([5, 0, 5] : List ℚ).get? j ≠ some 5 := by
  obtain ⟨i, h1, h2, h3, _, _⟩ :=
    C1_global_peak_first_match c1State 0 (Marker.mk true 0 none) [5, 0, 5]
      0 2 5 rfl rfl rfl (by norm_num [c1State]) rfl
      (by norm_num [searchsorted, pySlice, npMax, c1State])
  exact ⟨i, h1, h2, h3⟩

lemma head?_mem {l : List ℚ} {a : ℚ} (h : l.head? = some a) : a ∈ l := by
  cases l with
  | nil => simp at h
  | cons x xs =>
    simp at h
    simp [h]

/-- C3 amended: when the view window does not intersect [F[0], F[N-1]],
find_peak returns the state unchanged, and the right and left searches
leave a SET marker index unchanged (the right search returns the state
itself, the left search at most flips the enabled flag).  The claim's
unset case fails: the searches write N/2 into an unset marker before
the no-op return (see the counterexample). -/
theorem C3_disjoint_window_noop (s : TC) (num : Nat) (mk : Marker)
    (f0 fN : ℚ)
    (hmk : s.markers.get? num = some mk)
    (hf0 : s.xdata.head? = some f0)
    (hfN : s.xdata.getLast? = some fN)
    (hsort : s.xdata.Pairwise (fun a b => a ≤ b))
    (hdis : s.whi < f0 ∨ s.wlo > fN) :
    find_peak s num = some s ∧
    ∀ tr m, s.traces.get? mk.trace_index = some tr → mk.data_index = some m →
      find_right_peak s num = some s ∧
      ∃ s', find_left_peak s num = some s' ∧ markerIdx s' num = some m := by
  constructor
  · unfold find_peak
    simp only [hmk, hf0, hfN, if_pos hdis]
  · intro tr m htr hidx
    have hstop : ∀ (lo hi : Nat) (d0 dN : ℚ),
        (pySlice s.xdata lo hi).head? = some d0 →
        (pySlice s.xdata lo hi).getLast? = some dN →
        (s.whi < d0 ∨ s.wlo > dN) := by
      intro lo hi d0 dN hd0 hdN
      rcases hdis with hd | hd
      · exact Or.inl (lt_of_lt_of_le hd
          (sorted_head?_le hsort hf0 (pySlice_subset _ _ _ (head?_mem hd0))))
      · exact Or.inr (lt_of_le_of_lt
          (sorted_le_getLast? hsort hfN (pySlice_subset _ _ _ (getLast?_mem hdN))) hd)
    constructor
    · exact find_right_peak_noop hmk hidx htr (hstop _ _)
    · have hnoop := find_left_peak_noop hmk hidx htr (hstop _ _)
      refine ⟨_, hnoop, ?_⟩
      cases hEn : mk.enabled with
      | true =>
        simp only [hEn, if_true, markerIdx, hmk]
        exact hidx
      | false =>
        simp only [hEn, Bool.false_eq_true, if_false]
        rw [markerIdx_setMarker _ hmk]
        exact hidx

/-- State for the C3 counterexample: the marker index is unset, the
window [10, 11] lies beyond the axis [0, 3]. -/
def c3State : TC :=
  TC.mk [Trace.mk true false false false (some [1, 2, 3, 4])]
    [Marker.mk true 0 none] [0, 1, 2, 3] 10 11 0

/-- C3 counterexample: the claim says that with a disjoint window every
operation leaves the marker index unchanged, including an unset index.
Here the window [10, 11] does not intersect the axis [0, 3], the index
starts unset, yet find_right_peak returns with the index set to
N / 2 = 2. -/
theorem C3_counterexample :
    (c3State.whi < 0 ∨ c3State.wlo > 3) ∧
    markerIdx c3State 0 = none ∧
    (find_right_peak c3State 0).map (fun s => markerIdx s 0) =
      some (some 2) := by
  refine ⟨by norm_num [c3State], rfl, ?_⟩
  norm_num [find_right_peak, defaultIndex, markerIdx, setMarker, rightRange,
    pySlice, c3State]

/-- State for the C3 witness: as c3State but with the index set to 2. -/
def c3WState : TC :=
  TC.mk [Trace.mk true false false false (some [1, 2, 3, 4])]
    [Marker.mk true 0 (some 2)] [0, 1, 2, 3] 10 11 0

/-- Witness for the amended C3 on c3WState. -/
theorem C3_disjoint_window_noop_witness :
    find_peak c3WState 0 = some c3WState ∧
    find_right_peak c3WState 0 = some c3WState ∧
    ∃ s', find_left_peak c3WState 0 = some s' ∧ markerIdx s' 0 = some 2 := by
  obtain ⟨h1, h2⟩ := C3_disjoint_window_noop c3WState 0
    (Marker.mk true 0 (some 2)) 0 3 rfl rfl rfl
    (by norm_num [c3WState, List.pairwise_cons]) (by norm_num [c3WState])
  obtain ⟨h3, h4⟩ := h2 (Trace.mk true false false false (some [1, 2, 3, 4]))
    2 rfl rfl
  exact ⟨h1, h3, h4⟩

lemma whereFirst_le {v : ℚ} {l : List ℚ} {i j : Nat}
    (h : whereFirst v l = some i) (hj : l.get? j = some v) : i ≤ j := by
  by_contra hlt
  push_neg at hlt
  exact whereFirst_min h j hlt hj

lemma rightPow_subset (s : TC) (pow : List ℚ) (m : Nat) :
    rightPow s pow m ⊆ pow := by
  unfold rightPow
  exact pySlice_subset _ _ _

lemma leftPow_subset (s : TC) (pow : List ℚ) (m : Nat) :
    leftPow s pow m ⊆ pow := by
  unfold leftPow
  exact pySlice_subset _ _ _

lemma rightCands_subset (s : TC) (pow : List ℚ) (m : Nat) :
    rightCands s pow m ⊆ rightPow s pow m := by
  unfold rightCands
  exact maskNotLess_subset _ _ _

lemma leftCands_subset (s : TC) (pow : List ℚ) (m : Nat) :
    leftCands s pow m ⊆ leftPow s pow m := by
  unfold leftCands
  exact maskNotLess_subset _ _ _

/-- C4: for a non-empty candidate list the right search selects the
second candidate when there are at least two and the only candidate
otherwise; the left search mirrors this with the second to last
candidate; each then sets the marker index to the first index of the
FULL power array whose value equals the selected candidate. -/
theorem C4_candidate_selection (s : TC) (num : Nat) (mk : Marker)
    (tr : Trace) (pow : List ℚ) (m : Nat)
    (hmk : s.markers.get? num = some mk)
    (hidx : mk.data_index = some m)
    (htr : s.traces.get? mk.trace_index = some tr)
    (hdata : tr.data = some pow) :
    (∀ d0 dN, (rightRange s m).head? = some d0 →
      (rightRange s m).getLast? = some dN →
      ¬(s.whi < d0 ∨ s.wlo > dN) →
      rightCands s pow m ≠ [] →
      ∃ i sel,
        (if 1 < (rightCands s pow m).length
          then (rightCands s pow m).get? 1 = some sel
          else rightCands s pow m = [sel]) ∧
        find_right_peak s num =
          some (setMarker s num { mk with data_index := some i }) ∧
        pow.get? i = some sel ∧
        ∀ j < i, pow.get? j ≠ some sel) ∧
    (∀ d0 dN, (leftRange s m).head? = some d0 →
      (leftRange s m).getLast? = some dN →
      ¬(s.whi < d0 ∨ s.wlo > dN) →
      leftCands s pow m ≠ [] →
      ∃ i sel,
        (if 1 < (leftCands s pow m).length
          then (leftCands s pow m).get? ((leftCands s pow m).length - 2) = some sel
          else leftCands s pow m = [sel]) ∧
        find_left_peak s num =
          some (setMarker s num
            { mk with enabled := true, data_index := some i }) ∧
        pow.get? i = some sel ∧
        ∀ j < i, pow.get? j ≠ some sel) := by
  constructor
  · intro d0 dN hd0 hdN hwin hne
    have heq := find_right_peak_eq hmk hidx htr hdata hd0 hdN hwin
    have hlen0 : ¬((rightCands s pow m).length = 0) := by
      simpa using hne
    have hselpow : pickRight (rightCands s pow m) ∈ pow :=
      rightPow_subset s pow m (rightCands_subset s pow m (pickRight_mem hne))
    obtain ⟨i, hi⟩ := whereFirst_isSome hselpow
    refine ⟨i, pickRight (rightCands s pow m), ?_, ?_,
      whereFirst_get? hi, whereFirst_min hi⟩
    · by_cases h1 : 1 < (rightCands s pow m).length
      · rw [if_pos h1]
        exact pickRight_get? h1
      · rw [if_neg h1]
        have hl1 : (rightCands s pow m).length = 1 := by
          have := List.length_pos.mpr hne
          omega
        exact pickRight_single hl1
    · rw [heq, if_neg hlen0, hi]
  · intro d0 dN hd0 hdN hwin hne
    have heq := find_left_peak_eq hmk hidx htr hdata hd0 hdN hwin
    have hlen0 : ¬((leftCands s pow m).length = 0) := by
      simpa using hne
    have hselpow : pickLeft (leftCands s pow m) ∈ pow :=
      leftPow_subset s pow m (leftCands_subset s pow m (pickLeft_mem hne))
    obtain ⟨i, hi⟩ := whereFirst_isSome hselpow
    refine ⟨i, pickLeft (leftCands s pow m), ?_, ?_,
      whereFirst_get? hi, whereFirst_min hi⟩
    · by_cases h1 : 1 < (leftCands s pow m).length
      · rw [if_pos h1]
        exact pickLeft_get? h1
      · rw [if_neg h1]
        have hl1 : (leftCands s pow m).length = 1 := by
          have := List.length_pos.mpr hne
          omega
        exact pickLeft_single hl1
    · rw [heq, if_neg hlen0, hi]

/-- Power array with peaks on both sides of index 8, used by several
witnesses. -/
def wPow : List ℚ := [0, 30, 31, 0, 32, 0, 0, 0, 0, 0, 20, 21, 0, 0, 22, -5]

/-- Witness state: one trace holding wPow, one enabled marker at
index 8, window [-100, 100], threshold 0. -/
def wState : TC :=
  TC.mk [Trace.mk true false false false (some wPow)]
    [Marker.mk true 0 (some 8)]
    [0, 1, 2, 3, 4, 5, 6, 7, 8, 9, 10, 11, 12, 13, 14, 15] (-100) 100 0

/-- Witness for C4 on wState: the right search selects 22 (the second
of the candidates [21, 22]) at full-array index 14; the left search
selects 31 (the second to last of [31, 32]) at index 2. -/
theorem C4_candidate_selection_witness :
    (∃ i sel, find_right_peak wState 0 =
        some (setMarker wState 0
          { Marker.mk true 0 (some 8) with data_index := some i }) ∧
      wPow.get? i = some sel ∧ ∀ j < i, wPow.get? j ≠ some sel) ∧
    (∃ i sel, find_left_peak wState 0 =
        some (setMarker wState 0
          { Marker.mk true 0 (some 8) with enabled := true, data_index := some i }) ∧
      wPow.get? i = some sel ∧ ∀ j < i, wPow.get? j ≠ some sel) := by
  have h := C4_candidate_selection wState 0 (Marker.mk true 0 (some 8))
    (Trace.mk true false false false (some wPow)) wPow 8 rfl rfl rfl rfl
  constructor
  · obtain ⟨i, sel, _, h2, h3, h4⟩ := h.1 8 14 rfl rfl (by norm_num [wState])
      (by norm_num [rightCands, rightPow, rightRange, searchsorted, pySlice,
        noiseFloor, maskNotLess, List.insertionSort, List.orderedInsert,
        wState, wPow] <;> simp)
    exact ⟨i, sel, h2, h3, h4⟩
  · obtain ⟨i, sel, _, h2, h3, h4⟩ := h.2 0 7 rfl rfl (by norm_num [wState])
      (by norm_num [leftCands, leftPow, leftRange, searchsorted, pySlice,
        noiseFloor, maskNotLess, List.insertionSort, List.orderedInsert,
        wState, wPow] <;> simp)
    exact ⟨i, sel, h2, h3, h4⟩

/-- C5 amended: whenever it selects, the left search returns an index
strictly below the marker index m (the selected value is attained
before index m and the first-match lookup can only move further left);
the right search returns an index at most N - 2 (the restricted range
ends before the last sample), but the index need not exceed m: the
restricted range starts AT the marker index and the full-array lookup
can land at or before m, as the counterexample shows. -/
theorem C5_result_index_bounds (s : TC) (num : Nat) (mk : Marker)
    (tr : Trace) (pow : List ℚ) (m : Nat)
    (hmk : s.markers.get? num = some mk)
    (hidx : mk.data_index = some m)
    (htr : s.traces.get? mk.trace_index = some tr)
    (hdata : tr.data = some pow)
    (hlen : pow.length = s.xdata.length) :
    (∀ d0 dN, (leftRange s m).head? = some d0 →
      (leftRange s m).getLast? = some dN →
      ¬(s.whi < d0 ∨ s.wlo > dN) →
      leftCands s pow m ≠ [] →
      ∃ s' i, find_left_peak s num = some s' ∧
        markerIdx s' num = some i ∧ i < m) ∧
    (∀ d0 dN, (rightRange s m).head? = some d0 →
      (rightRange s m).getLast? = some dN →
      ¬(s.whi < d0 ∨ s.wlo > dN) →
      rightCands s pow m ≠ [] →
      ∃ s' i, find_right_peak s num = some s' ∧
        markerIdx s' num = some i ∧ i ≤ pow.length - 2) := by
  constructor
  · intro d0 dN hd0 hdN hwin hne
    have heq := find_left_peak_eq hmk hidx htr hdata hd0 hdN hwin
    have hlen0 : ¬((leftCands s pow m).length = 0) := by
      simpa using hne
    have hselmem : pickLeft (leftCands s pow m) ∈ leftPow s pow m :=
      leftCands_subset s pow m (pickLeft_mem hne)
    obtain ⟨j, hj1, hj2, hj3⟩ := pySlice_mem_spec hselmem
    have hselpow : pickLeft (leftCands s pow m) ∈ pow :=
      leftPow_subset s pow m hselmem
    obtain ⟨i, hi⟩ := whereFirst_isSome hselpow
    have hij : i ≤ j := whereFirst_le hi hj3
    have hmx : searchsorted (leftRange s m) s.whi ≤ m := by
      have h1 : searchsorted (leftRange s m) s.whi ≤ (leftRange s m).length :=
        List.countP_le_length _
      have h2 : (leftRange s m).length ≤ m := by
        unfold leftRange
        rw [pySlice_length]
        have := min_le_left (m - 0) (s.xdata.length - 0)
        omega
      omega
    refine ⟨setMarker s num
      { mk with enabled := true, data_index := some i }, i, ?_, ?_, by omega⟩
    · rw [heq, if_neg hlen0, hi]
    · rw [markerIdx_setMarker _ hmk]
  · intro d0 dN hd0 hdN hwin hne
    have heq := find_right_peak_eq hmk hidx htr hdata hd0 hdN hwin
    have hlen0 : ¬((rightCands s pow m).length = 0) := by
      simpa using hne
    have hselmem : pickRight (rightCands s pow m) ∈ rightPow s pow m :=
      rightCands_subset s pow m (pickRight_mem hne)
    obtain ⟨j, hj1, hj2, hj3⟩ := pySlice_mem_spec hselmem
    have hselpow : pickRight (rightCands s pow m) ∈ pow :=
      rightPow_subset s pow m hselmem
    obtain ⟨i, hi⟩ := whereFirst_isSome hselpow
    have hij : i ≤ j := whereFirst_le hi hj3
    have hdrne : (rightRange s m).length ≠ 0 := by
      intro hemp
      rw [List.length_eq_zero] at hemp
      rw [hemp] at hd0
      simp at hd0
    have hmlt : m < s.xdata.length - 1 := by
      by_contra hge
      push_neg at hge
      apply hdrne
      unfold rightRange
      rw [pySlice_length]
      omega
    have hmx : searchsorted (rightRange s m) s.whi + m ≤ s.xdata.length - 1 := by
      have h1 : searchsorted (rightRange s m) s.whi ≤ (rightRange s m).length :=
        List.countP_le_length _
      have h2 : (rightRange s m).length ≤ s.xdata.length - 1 - m := by
        unfold rightRange
        rw [pySlice_length]
        have := min_le_left (s.xdata.length - 1 - m) (s.xdata.length - m)
        omega
      omega
    refine ⟨setMarker s num { mk with data_index := some i }, i, ?_, ?_,
      by omega⟩
    · rw [heq, if_neg hlen0, hi]
    · rw [markerIdx_setMarker _ hmk]

/-- State for the C5 counterexample: P = [0, 9, 0, 0, 0, 0, 0, 0],
marker index m = 1, window [-1, 100], threshold 5. -/
def c5State : TC :=
  TC.mk [Trace.mk true false false false (some [0, 9, 0, 0, 0, 0, 0, 0])]
    [Marker.mk true 0 (some 1)] [0, 1, 2, 3, 4, 5, 6, 7] (-1) 100 5

/-- C5 counterexample: the claim says the right search returns an index
strictly greater than m.  Here the restricted range is P[1:7], the
noise floor is 0, the only candidate is the value 9 at index m = 1
itself, and the search returns index 1, not greater than m = 1. -/
theorem C5_counterexample :
    markerIdx c5State 0 = some 1 ∧
    (find_right_peak c5State 0).map (fun s => markerIdx s 0) =
      some (some 1) := by
  refine ⟨rfl, ?_⟩
  norm_num [find_right_peak, defaultIndex, markerIdx, setMarker, rightRange,
    rightCands, rightPow, searchsorted, pySlice, noiseFloor, maskNotLess,
    pickRight, whereFirst, List.insertionSort, List.orderedInsert, c5State]

/-- Witness for the amended C5 on wState: the left search lands at
index 2 < 8 = m and the right search lands at index 14 = N - 2. -/
theorem C5_result_index_bounds_witness :
    (∃ s' i, find_left_peak wState 0 = some s' ∧
      markerIdx s' 0 = some i ∧ i < 8) ∧
    (∃ s' i, find_right_peak wState 0 = some s' ∧
      markerIdx s' 0 = some i ∧ i ≤ wPow.length - 2) := by
  have h := C5_result_index_bounds wState 0 (Marker.mk true 0 (some 8))
    (Trace.mk true false false false (some wPow)) wPow 8 rfl rfl rfl rfl
    (by norm_num [wState, wPow])
  constructor
  · exact h.1 0 7 rfl rfl (by norm_num [wState])
      (by norm_num [leftCands, leftPow, leftRange, searchsorted, pySlice,
        noiseFloor, maskNotLess, List.insertionSort, List.orderedInsert,
        wState, wPow] <;> simp)
  · exact h.2 8 14 rfl rfl (by norm_num [wState])
      (by norm_num [rightCands, rightPow, rightRange, searchsorted, pySlice,
        noiseFloor, maskNotLess, List.insertionSort, List.orderedInsert,
        wState, wPow] <;> simp)

lemma setMarker_setMarker (s : TC) (num : Nat) (mk1 mk2 : Marker) :
    setMarker (setMarker s num mk1) num mk2 = setMarker s num mk2 := by
  simp only [setMarker, List.set_set]

lemma find_peak_shape (s : TC) (num : Nat) (a : TC)
    (h : find_peak s num = some a) :
    a = s ∨ ∃ mk mk', s.markers.get? num = some mk ∧
      a = setMarker s num mk' ∧ mk'.trace_index = mk.trace_index ∧
      mk'.enabled = mk.enabled := by
  unfold find_peak at h
  cases hmk : s.markers.get? num with
  | none =>
    simp only [hmk] at h
    exact Option.noConfusion h
  | some mk =>
    simp only [hmk] at h
    repeat' split at h
    all_goals first
      | exact Option.noConfusion h
      | (injection h with h
         first
           | exact Or.inl h.symm
           | exact Or.inr ⟨mk, _, rfl, h.symm, rfl, rfl⟩)

lemma find_right_peak_shape (s : TC) (num : Nat) (a : TC)
    (h : find_right_peak s num = some a) :
    a = s ∨ ∃ mk mk', s.markers.get? num = some mk ∧
      a = setMarker s num mk' ∧ mk'.trace_index = mk.trace_index ∧
      mk'.enabled = mk.enabled := by
  unfold find_right_peak at h
  cases hmk : s.markers.get? num with
  | none =>
    simp only [hmk] at h
    exact Option.noConfusion h
  | some mk =>
    simp only [hmk] at h
    cases htr : s.traces.get? mk.trace_index with
    | none =>
      simp only [htr] at h
      exact Option.noConfusion h
    | some tr =>
      simp only [htr] at h
      cases hdi : mk.data_index with
      | some m =>
        simp only [defaultIndex, hdi] at h
        repeat' split at h
        all_goals first
          | exact Option.noConfusion h
          | (injection h with h
             first
               | exact Or.inl h.symm
               | exact Or.inr ⟨mk, _, rfl, h.symm, rfl, rfl⟩)
      | none =>
        cases hd : tr.data with
        | none =>
          simp only [defaultIndex, hdi, hd] at h
          exact Option.noConfusion h
        | some pow =>
          simp only [defaultIndex, hdi, hd] at h
          repeat' split at h
          all_goals first
            | exact Option.noConfusion h
            | (injection h with h
               try simp only [setMarker_setMarker] at h
               exact Or.inr ⟨mk, _, rfl, h.symm, rfl, rfl⟩)

lemma find_left_peak_shape (s : TC) (num : Nat) (a : TC)
    (h : find_left_peak s num = some a) :
    a = s ∨ ∃ mk mk', s.markers.get? num = some mk ∧
      a = setMarker s num mk' ∧ mk'.trace_index = mk.trace_index := by
  unfold find_left_peak at h
  cases hmk : s.markers.get? num with
  | none =>
    simp only [hmk] at h
    exact Option.noConfusion h
  | some mk =>
    simp only [hmk] at h
    cases htr : s.traces.get? mk.trace_index with
    | none =>
      simp only [htr] at h
      exact Option.noConfusion h
    | some tr =>
      simp only [htr] at h
      cases hEn : mk.enabled with
      | true =>
        simp only [hEn, if_true] at h
        cases hdi : mk.data_index with
        | some m =>
          simp only [defaultIndex, hdi] at h
          repeat' split at h
          all_goals first
            | exact Option.noConfusion h
            | (injection h with h
               first
                 | exact Or.inl h.symm
                 | exact Or.inr ⟨mk, _, rfl, h.symm, rfl⟩)
        | none =>
          cases hd : tr.data with
          | none =>
            simp only [defaultIndex, hdi, hd] at h
            exact Option.noConfusion h
          | some pow =>
            simp only [defaultIndex, hdi, hd] at h
            repeat' split at h
            all_goals first
              | exact Option.noConfusion h
              | (injection h with h
                 try simp only [setMarker_setMarker] at h
                 exact Or.inr ⟨mk, _, rfl, h.symm, rfl⟩)
      | false =>
        simp only [hEn, Bool.false_eq_true, if_false] at h
        cases hdi : mk.data_index with
        | some m =>
          simp only [defaultIndex, hdi] at h
          repeat' split at h
          all_goals first
            | exact Option.noConfusion h
            | (injection h with h
               try simp only [setMarker_setMarker] at h
               exact Or.inr ⟨mk, _, rfl, h.symm, rfl⟩)
        | none =>
          cases hd : tr.data with
          | none =>
            simp only [defaultIndex, hdi, hd] at h
            exact Option.noConfusion h
          | some pow =>
            simp only [defaultIndex, hdi, hd] at h
            repeat' split at h
            all_goals first
              | exact Option.noConfusion h
              | (injection h with h
                 try simp only [setMarker_setMarker] at h
                 exact Or.inr ⟨mk, _, rfl, h.symm, rfl⟩)

/-- Frame of a search call: traces, axis, window and threshold are
unchanged, every marker other than num is unchanged, and marker num
keeps its trace binding. -/
def framePreserved (s a : TC) (num : Nat) : Prop :=
  a.traces = s.traces ∧ a.xdata = s.xdata ∧ a.wlo = s.wlo ∧ a.whi = s.whi ∧
  a.peak_threshold = s.peak_threshold ∧
  (∀ j, j ≠ num → a.markers.get? j = s.markers.get? j) ∧
  ∀ mk mk', s.markers.get? num = some mk → a.markers.get? num = some mk' →
    mk'.trace_index = mk.trace_index

/-- The written marker also keeps its enabled flag. -/
def enabledPreserved (s a : TC) (num : Nat) : Prop :=
  ∀ mk mk', s.markers.get? num = some mk → a.markers.get? num = some mk' →
    mk'.enabled = mk.enabled

lemma framePreserved_self (s : TC) (num : Nat) : framePreserved s s num := by
  refine ⟨rfl, rfl, rfl, rfl, rfl, fun j _ => rfl, ?_⟩
  intro mk mk' h1 h2
  rw [h1] at h2
  injection h2 with h2
  rw [← h2]

lemma enabledPreserved_self (s : TC) (num : Nat) : enabledPreserved s s num := by
  intro mk mk' h1 h2
  rw [h1] at h2
  injection h2 with h2
  rw [← h2]

lemma framePreserved_setMarker {s : TC} {num : Nat} {mk : Marker}
    (mk' : Marker) (hmk : s.markers.get? num = some mk)
    (hti : mk'.trace_index = mk.trace_index) :
    framePreserved s (setMarker s num mk') num := by
  refine ⟨rfl, rfl, rfl, rfl, rfl,
    fun j hj => setMarker_markers_get?_ne _ hj, ?_⟩
  intro mk0 mk1 h0 h1
  rw [setMarker_markers_get?_eq mk' hmk] at h1
  rw [hmk] at h0
  injection h0 with h0
  injection h1 with h1
  rw [← h1, ← h0]
  exact hti

lemma enabledPreserved_setMarker {s : TC} {num : Nat} {mk : Marker}
    (mk' : Marker) (hmk : s.markers.get? num = some mk)
    (hen : mk'.enabled = mk.enabled) :
    enabledPreserved s (setMarker s num mk') num := by
  intro mk0 mk1 h0 h1
  rw [setMarker_markers_get?_eq mk' hmk] at h1
  rw [hmk] at h0
  injection h0 with h0
  injection h1 with h1
  rw [← h1, ← h0]
  exact hen

/-- C9: each search writes only the marker it was given: the traces,
the axis, the window, the threshold and every other marker are
unchanged by a successful call; the written marker keeps its trace
binding, and the global and right searches also keep its enabled flag
(the left search may enable the marker). -/
theorem C9_search_frame (s : TC) (num : Nat) :
    (∀ a, find_peak s num = some a →
      framePreserved s a num ∧ enabledPreserved s a num) ∧
    (∀ a, find_right_peak s num = some a →
      framePreserved s a num ∧ enabledPreserved s a num) ∧
    (∀ a, find_left_peak s num = some a → framePreserved s a num) := by
  refine ⟨?_, ?_, ?_⟩
  · intro a h
    rcases find_peak_shape s num a h with rfl | ⟨mk, mk', hmk, rfl, hti, hen⟩
    · exact ⟨framePreserved_self _ num, enabledPreserved_self _ num⟩
    · exact ⟨framePreserved_setMarker mk' hmk hti,
        enabledPreserved_setMarker mk' hmk hen⟩
  · intro a h
    rcases find_right_peak_shape s num a h with rfl | ⟨mk, mk', hmk, rfl, hti, hen⟩
    · exact ⟨framePreserved_self _ num, enabledPreserved_self _ num⟩
    · exact ⟨framePreserved_setMarker mk' hmk hti,
        enabledPreserved_setMarker mk' hmk hen⟩
  · intro a h
    rcases find_left_peak_shape s num a h with rfl | ⟨mk, mk', hmk, rfl, hti⟩
    · exact framePreserved_self _ num
    · exact framePreserved_setMarker mk' hmk hti

/-- Witness for C9: on wState the right search returns with only marker
0 rewritten (to index 14) and the frame intact. -/
theorem C9_search_frame_witness :
    framePreserved wState
      (setMarker wState 0 (Marker.mk true 0 (some 14))) 0 := by
  refine ((C9_search_frame wState 0).2.1 _ ?_).1
  norm_num [find_right_peak, defaultIndex, setMarker, rightRange, rightCands,
    rightPow, searchsorted, pySlice, noiseFloor, maskNotLess, pickRight,
    whereFirst, List.insertionSort, List.orderedInsert, wState, wPow]

/-! Scaling lemmas for C7. -/

lemma insertionSort_map_scale (c : ℚ) (hc : 0 < c) (l : List ℚ) :
    List.insertionSort (fun a b => a ≤ b) (l.map (fun v => c * v)) =
      (List.insertionSort (fun a b => a ≤ b) l).map (fun v => c * v) := by
  apply List.eq_of_perm_of_sorted (r := fun a b : ℚ => a ≤ b)
  · exact (List.perm_insertionSort _ _).trans
      ((List.perm_insertionSort (fun a b : ℚ => a ≤ b) l).map _).symm
  · exact List.sorted_insertionSort _ _
  · exact List.Pairwise.map _
      (fun a b hab => mul_le_mul_of_nonneg_left hab hc.le)
      (List.sorted_insertionSort _ l)

lemma pySlice_map (f : ℚ → ℚ) (l : List ℚ) (lo hi : Nat) :
    pySlice (l.map f) lo hi = (pySlice l lo hi).map f := by
  unfold pySlice
  rw [← List.map_drop, ← List.map_take]

lemma sum_map_scale (c : ℚ) (l : List ℚ) :
    (l.map (fun v => c * v)).sum = c * l.sum := by
  induction l with
  | nil => simp
  | cons x xs ih => simp [ih, mul_add]

lemma noiseFloor_map_scale (c : ℚ) (hc : 0 < c) (l : List ℚ) :
    noiseFloor (l.map (fun v => c * v)) =
      (noiseFloor l).map (fun v => c * v) := by
  unfold noiseFloor
  rw [List.length_map, insertionSort_map_scale c hc, pySlice_map]
  by_cases h0 : (pySlice (List.insertionSort (fun a b => a ≤ b) l)
      (4 * l.length / 5) (l.length - 1)).length = 0
  · simp [h0]
  · simp only [List.length_map, if_neg h0, Option.map_some', sum_map_scale]
    rw [mul_div_assoc]

lemma maskNotLess_map_scale (c : ℚ) (hc : 0 < c) (xs : List ℚ)
    (nf : Option ℚ) (t : ℚ) :
    maskNotLess (xs.map (fun v => c * v)) (nf.map (fun v => c * v)) (c * t) =
      (maskNotLess xs nf t).map (fun v => c * v) := by
  cases nf with
  | none => rfl
  | some f =>
    simp only [maskNotLess, Option.map_some']
    rw [List.filter_map]
    have hfun : ((fun v => !decide (v < c * f + c * t)) ∘ fun v => c * v) =
        (fun v => !decide (v < f + t)) := by
      funext v
      have hiff : (c * v < c * f + c * t) ↔ (v < f + t) := by
        rw [← mul_add]
        exact mul_lt_mul_left hc
      simp [Function.comp, hiff]
    rw [hfun]

lemma getD_map_scale (c : ℚ) (l : List ℚ) (n : Nat) :
    (l.map (fun v => c * v)).getD n 0 = c * l.getD n 0 := by
  rw [List.getD_eq_get?, List.getD_eq_get?, List.get?_map]
  cases l.get? n with
  | none => simp
  | some a => simp

lemma pickRight_map_scale (c : ℚ) (l : List ℚ) :
    pickRight (l.map (fun v => c * v)) = c * pickRight l := by
  unfold pickRight
  rw [List.length_map, getD_map_scale]

lemma pickLeft_map_scale (c : ℚ) (l : List ℚ) :
    pickLeft (l.map (fun v => c * v)) = c * pickLeft l := by
  unfold pickLeft
  rw [List.length_map, getD_map_scale]

lemma whereFirst_map_scale (c : ℚ) (hc : c ≠ 0) (v : ℚ) (l : List ℚ) :
    whereFirst (c * v) (l.map (fun x => c * x)) = whereFirst v l := by
  induction l with
  | nil => rfl
  | cons x xs ih =>
    simp only [List.map_cons, whereFirst]
    by_cases hx : x = v
    · simp [hx]
    · rw [if_neg (fun hcc => hx (mul_left_cancel₀ hc hcc)), if_neg hx, ih]

lemma scaleTC_markers (c : ℚ) (s : TC) : (scaleTC c s).markers = s.markers :=
  rfl

lemma scaleTC_wlo (c : ℚ) (s : TC) : (scaleTC c s).wlo = s.wlo := rfl

lemma scaleTC_whi (c : ℚ) (s : TC) : (scaleTC c s).whi = s.whi := rfl

lemma scaleTC_xdata (c : ℚ) (s : TC) : (scaleTC c s).xdata = s.xdata := rfl

lemma scaleTC_peak (c : ℚ) (s : TC) :
    (scaleTC c s).peak_threshold = c * s.peak_threshold := rfl

lemma scaleTC_traces_get? (c : ℚ) (s : TC) (i : Nat) :
    (scaleTC c s).traces.get? i = (s.traces.get? i).map (scaleTrace c) := by
  simp [scaleTC, List.get?_map]

lemma scaleTrace_data (c : ℚ) (t : Trace) :
    (scaleTrace c t).data = t.data.map (List.map (fun v => c * v)) := rfl

lemma scaleTC_setMarker (c : ℚ) (s : TC) (num : Nat) (mk : Marker) :
    setMarker (scaleTC c s) num mk = scaleTC c (setMarker s num mk) := rfl

lemma rightRange_scale (c : ℚ) (s : TC) (m : Nat) :
    rightRange (scaleTC c s) m = rightRange s m := rfl

lemma leftRange_scale (c : ℚ) (s : TC) (m : Nat) :
    leftRange (scaleTC c s) m = leftRange s m := rfl

lemma rightPow_scale (c : ℚ) (s : TC) (pow : List ℚ) (m : Nat) :
    rightPow (scaleTC c s) (pow.map (fun v => c * v)) m =
      (rightPow s pow m).map (fun v => c * v) := by
  unfold rightPow
  rw [rightRange_scale, scaleTC_wlo, scaleTC_whi, pySlice_map]

lemma leftPow_scale (c : ℚ) (s : TC) (pow : List ℚ) (m : Nat) :
    leftPow (scaleTC c s) (pow.map (fun v => c * v)) m =
      (leftPow s pow m).map (fun v => c * v) := by
  unfold leftPow
  rw [leftRange_scale, scaleTC_wlo, scaleTC_whi, pySlice_map]

lemma rightCands_scale (c : ℚ) (hc : 0 < c) (s : TC) (pow : List ℚ) (m : Nat) :
    rightCands (scaleTC c s) (pow.map (fun v => c * v)) m =
      (rightCands s pow m).map (fun v => c * v) := by
  unfold rightCands
  rw [rightPow_scale, noiseFloor_map_scale c hc]
  exact maskNotLess_map_scale c hc _ _ _

lemma leftCands_scale (c : ℚ) (hc : 0 < c) (s : TC) (pow : List ℚ) (m : Nat) :
    leftCands (scaleTC c s) (pow.map (fun v => c * v)) m =
      (leftCands s pow m).map (fun v => c * v) := by
  unfold leftCands
  rw [leftPow_scale, noiseFloor_map_scale c hc]
  exact maskNotLess_map_scale c hc _ _ _

/-- C7 amended: scaling the whole power array by a positive constant c
and scaling the threshold t by the same factor c commutes with both
lateral searches, so the selected marker index is unchanged. -/
theorem C7_scale_same_index (s : TC) (num : Nat) (c : ℚ) (hc : 0 < c) :
    find_right_peak (scaleTC c s) num =
      (find_right_peak s num).map (scaleTC c) ∧
    find_left_peak (scaleTC c s) num =
      (find_left_peak s num).map (scaleTC c) ∧
    (find_right_peak (scaleTC c s) num).map (fun a => markerIdx a num) =
      (find_right_peak s num).map (fun a => markerIdx a num) ∧
    (find_left_peak (scaleTC c s) num).map (fun a => markerIdx a num) =
      (find_left_peak s num).map (fun a => markerIdx a num) := by
  have hc0 : c ≠ 0 := ne_of_gt hc
  have hright : find_right_peak (scaleTC c s) num =
      (find_right_peak s num).map (scaleTC c) := by
    unfold find_right_peak
    cases hmk : s.markers.get? num with
    | none => simp only [scaleTC_markers, hmk, Option.map_none']
    | some mk =>
      simp only [scaleTC_markers, hmk]
      cases htr : s.traces.get? mk.trace_index with
      | none => simp only [scaleTC_traces_get?, htr, Option.map_none']
      | some tr =>
        simp only [scaleTC_traces_get?, htr, Option.map_some']
        cases hdi : mk.data_index with
        | some m =>
          simp only [defaultIndex, hdi]
          cases hd0 : (rightRange s m).head? with
          | none =>
            cases hdN : (rightRange s m).getLast? <;>
              simp only [rightRange_scale, hd0, hdN, Option.map_some']
          | some d0 =>
            cases hdN : (rightRange s m).getLast? with
            | none =>
              simp only [rightRange_scale, hd0, hdN, Option.map_some']
            | some dN =>
              simp only [rightRange_scale, scaleTC_wlo, scaleTC_whi, hd0, hdN]
              by_cases hw : s.whi < d0 ∨ s.wlo > dN
              · simp only [if_pos hw, Option.map_some']
              · simp only [if_neg hw]
                cases hd : tr.data with
                | none => simp only [scaleTrace_data, hd, Option.map_none']
                | some pow =>
                  simp only [scaleTrace_data, hd, Option.map_some',
                    rightCands_scale c hc, List.length_map]
                  by_cases hcs : (rightCands s pow m).length = 0
                  · simp only [if_pos hcs, Option.map_some']
                  · simp only [if_neg hcs, Option.map_some',
                      pickRight_map_scale, whereFirst_map_scale c hc0,
                      scaleTC_setMarker]
        | none =>
          cases hd : tr.data with
          | none =>
            simp only [defaultIndex, hdi, scaleTrace_data, hd,
              Option.map_none']
          | some pow =>
            simp only [defaultIndex, hdi, scaleTrace_data, hd,
              Option.map_some', List.length_map, scaleTC_setMarker]
            cases hd0 : (rightRange s (pow.length / 2)).head? with
            | none =>
              cases hdN : (rightRange s (pow.length / 2)).getLast? <;>
                simp only [rightRange_scale, hd0, hdN, Option.map_some']
            | some d0 =>
              cases hdN : (rightRange s (pow.length / 2)).getLast? with
              | none =>
                simp only [rightRange_scale, hd0, hdN, Option.map_some']
              | some dN =>
                simp only [rightRange_scale, scaleTC_wlo, scaleTC_whi,
                  hd0, hdN]
                by_cases hw : s.whi < d0 ∨ s.wlo > dN
                · simp only [if_pos hw, Option.map_some']
                · simp only [if_neg hw, rightCands_scale c hc,
                    List.length_map]
                  by_cases hcs :
                      (rightCands s pow (pow.length / 2)).length = 0
                  · simp only [if_pos hcs, Option.map_some']
                  · simp only [if_neg hcs, Option.map_some',
                      pickRight_map_scale, whereFirst_map_scale c hc0,
                      scaleTC_setMarker]
  have hleft : find_left_peak (scaleTC c s) num =
      (find_left_peak s num).map (scaleTC c) := by
    unfold find_left_peak
    cases hmk : s.markers.get? num with
    | none => simp only [scaleTC_markers, hmk, Option.map_none']
    | some mk =>
      simp only [scaleTC_markers, hmk]
      cases htr : s.traces.get? mk.trace_index with
      | none => simp only [scaleTC_traces_get?, htr, Option.map_none']
      | some tr =>
        simp only [scaleTC_traces_get?, htr, Option.map_some']
        cases hEn : mk.enabled with
        | true =>
          simp only [hEn, if_true]
          cases hdi : mk.data_index with
          | some m =>
            simp only [defaultIndex, hdi]
            cases hd0 : (leftRange s m).head? with
            | none =>
              cases hdN : (leftRange s m).getLast? <;>
                simp only [leftRange_scale, hd0, hdN, Option.map_some']
            | some d0 =>
              cases hdN : (leftRange s m).getLast? with
              | none =>
                simp only [leftRange_scale, hd0, hdN, Option.map_some']
              | some dN =>
                simp only [leftRange_scale, scaleTC_wlo, scaleTC_whi,
                  hd0, hdN]
                by_cases hw : s.whi < d0 ∨ s.wlo > dN
                · simp only [if_pos hw, Option.map_some']
                · simp only [if_neg hw]
                  cases hd : tr.data with
                  | none => simp only [scaleTrace_data, hd, Option.map_none']
                  | some pow =>
                    simp only [scaleTrace_data, hd, Option.map_some',
                      leftCands_scale c hc, List.length_map]
                    by_cases hcs : (leftCands s pow m).length = 0
                    · simp only [if_pos hcs, Option.map_some']
                    · simp only [if_neg hcs, Option.map_some',
                        pickLeft_map_scale, whereFirst_map_scale c hc0,
                        scaleTC_setMarker]
          | none =>
            cases hd : tr.data with
            | none =>
              simp only [defaultIndex, hdi, scaleTrace_data, hd,
                Option.map_none']
            | some pow =>
              simp only [defaultIndex, hdi, scaleTrace_data, hd,
                Option.map_some', List.length_map, scaleTC_setMarker]
              cases hd0 : (leftRange s (pow.length / 2)).head? with
              | none =>
                cases hdN : (leftRange s (pow.length / 2)).getLast? <;>
                  simp only [leftRange_scale, hd0, hdN, Option.map_some']
              | some d0 =>
                cases hdN : (leftRange s (pow.length / 2)).getLast? with
                | none =>
                  simp only [leftRange_scale, hd0, hdN, Option.map_some']
                | some dN =>
                  simp only [leftRange_scale, scaleTC_wlo, scaleTC_whi,
                    hd0, hdN]
                  by_cases hw : s.whi < d0 ∨ s.wlo > dN
                  · simp only [if_pos hw, Option.map_some']
                  · simp only [if_neg hw, leftCands_scale c hc,
                      List.length_map]
                    by_cases hcs :
                        (leftCands s pow (pow.length / 2)).length = 0
                    · simp only [if_pos hcs, Option.map_some']
                    · simp only [if_neg hcs, Option.map_some',
                        pickLeft_map_scale, whereFirst_map_scale c hc0,
                        scaleTC_setMarker]
        | false =>
          simp only [hEn, Bool.false_eq_true, if_false, scaleTC_setMarker]
          cases hdi : mk.data_index with
          | some m =>
            simp only [defaultIndex, hdi]
            cases hd0 : (leftRange s m).head? with
            | none =>
              cases hdN : (leftRange s m).getLast? <;>
                simp only [leftRange_scale, hd0, hdN, Option.map_some']
            | some d0 =>
              cases hdN : (leftRange s m).getLast? with
              | none =>
                simp only [leftRange_scale, hd0, hdN, Option.map_some']
              | some dN =>
                simp only [leftRange_scale, scaleTC_wlo, scaleTC_whi,
                  hd0, hdN]
                by_cases hw : s.whi < d0 ∨ s.wlo > dN
                · simp only [if_pos hw, Option.map_some']
                · simp only [if_neg hw]
                  cases hd : tr.data with
                  | none => simp only [scaleTrace_data, hd, Option.map_none']
                  | some pow =>
                    simp only [scaleTrace_data, hd, Option.map_some',
                      leftCands_scale c hc, List.length_map]
                    by_cases hcs : (leftCands s pow m).length = 0
                    · simp only [if_pos hcs, Option.map_some']
                    · simp only [if_neg hcs, Option.map_some',
                        pickLeft_map_scale, whereFirst_map_scale c hc0,
                        scaleTC_setMarker]
          | none =>
            cases hd : tr.data with
            | none =>
              simp only [defaultIndex, hdi, scaleTrace_data, hd,
                Option.map_none']
            | some pow =>
              simp only [defaultIndex, hdi, scaleTrace_data, hd,
                Option.map_some', List.length_map, scaleTC_setMarker]
              cases hd0 : (leftRange s (pow.length / 2)).head? with
              | none =>
                cases hdN : (leftRange s (pow.length / 2)).getLast? <;>
                  simp only [leftRange_scale, hd0, hdN, Option.map_some']
              | some d0 =>
                cases hdN : (leftRange s (pow.length / 2)).getLast? with
                | none =>
                  simp only [leftRange_scale, hd0, hdN, Option.map_some']
                | some dN =>
                  simp only [leftRange_scale, scaleTC_wlo, scaleTC_whi,
                    hd0, hdN]
                  by_cases hw : s.whi < d0 ∨ s.wlo > dN
                  · simp only [if_pos hw, Option.map_some']
                  · simp only [if_neg hw, leftCands_scale c hc,
                      List.length_map]
                    by_cases hcs :
                        (leftCands s pow (pow.length / 2)).length = 0
                    · simp only [if_pos hcs, Option.map_some']
                    · simp only [if_neg hcs, Option.map_some',
                        pickLeft_map_scale, whereFirst_map_scale c hc0,
                        scaleTC_setMarker]
  have hmi : (fun a => markerIdx a num) ∘ scaleTC c =
      (fun a : TC => markerIdx a num) := by
    funext a
    rfl
  refine ⟨hright, hleft, ?_, ?_⟩
  · rw [hright, Option.map_map, hmi]
  · rw [hleft, Option.map_map, hmi]

/-- State for the C7 counterexample: P = [-50, 5, 6, 0, 0, 0, 7, -50],
marker index 1, window [-1, 100], threshold -1.  The restricted range
is P[1:7] = [5, 6, 0, 0, 0, 7], the noise floor 6, the threshold 5,
the candidates [5, 6, 7]; the second, 6, maps to index 2. -/
def c7aState : TC :=
  TC.mk [Trace.mk true false false false (some [-50, 5, 6, 0, 0, 0, 7, -50])]
    [Marker.mk true 0 (some 1)] [0, 1, 2, 3, 4, 5, 6, 7] (-1) 100 (-1)

/-- The c7aState transformed exactly as the claim describes: every
power value of the restricted range P[1:7] scaled by c = 2 and the
threshold shifted by the same additive constant, t = -1 + 2 = 1.  Now
the noise floor is 12, the threshold 13, the only candidate is 14,
which maps to index 6. -/
def c7bState : TC :=
  TC.mk [Trace.mk true false false false (some [-50, 10, 12, 0, 0, 0, 14, -50])]
    [Marker.mk true 0 (some 1)] [0, 1, 2, 3, 4, 5, 6, 7] (-1) 100 1

/-- C7 counterexample: scaling the restricted power values by a
positive constant (c = 2) and shifting the threshold by the same
additive constant does NOT yield the same selected index: the original
run selects index 2, the transformed run selects index 6. -/
theorem C7_counterexample :
    (find_right_peak c7aState 0).map (fun s => markerIdx s 0) =
      some (some 2) ∧
    (find_right_peak c7bState 0).map (fun s => markerIdx s 0) =
      some (some 6) := by
  constructor <;>
    norm_num [find_right_peak, defaultIndex, markerIdx, setMarker, rightRange,
      rightCands, rightPow, searchsorted, pySlice, noiseFloor, maskNotLess,
      pickRight, whereFirst, List.insertionSort, List.orderedInsert,
      c7aState, c7bState]

/-- Witness for the amended C7 at c = 2 on wState. -/
theorem C7_scale_same_index_witness :
    (0 : ℚ) < 2 ∧
    find_right_peak (scaleTC 2 wState) 0 =
      (find_right_peak wState 0).map (scaleTC 2) ∧
    (find_left_peak (scaleTC 2 wState) 0).map (fun a => markerIdx a 0) =
      (find_left_peak wState 0).map (fun a => markerIdx a 0) := by
  have h := C7_scale_same_index wState 0 2 (by norm_num)
  exact ⟨by norm_num, h.1, h.2.2.2⟩

end TraceCtl
